import Mathlib

/-!
Verification of the BigHash small-object flash-cache engine
(`src/Storages/DiskCache/BigHash.h` of ByConity).

The header file contains the full bucket geometry and lock-sharding code
inline (`Config::numBuckets`, `getBucketId`, `getBucketOffset`, `getMutex`,
`getSize`, the `kNumMutexes` / `kFormatVersion` constants and the
power-of-two static assertion).  Those are embedded here directly from the
source, with machine integers modelled as `Nat` and explicit `% 2^32` /
`% 2^64` where C++ truncation or wrap-around matters.

The bodies of `lookup`, `insert`, `remove`, `couldExist`, `bfReject`,
`persist` and `recover` live in the corresponding `.cpp` file, which is not
part of the sources; those operations are modelled from the specification
(each such definition carries a `Modelled from the spec:` doc comment).
-/

namespace BigHash

/-- `2^32`, the modulus of the C++ `UInt32` type. -/
def UINT32_MOD : Nat := 2 ^ 32

/-- `2^64`, the modulus of the C++ `UInt64` type. -/
def UINT64_MOD : Nat := 2 ^ 64

/-- Source, BigHash.h line 108: `static constexpr size_t kNumMutexes = 16 * 1024;`. -/
def kNumMutexes : Nat := 16 * 1024

/-- Source, BigHash.h line 111: `static constexpr UInt32 kFormatVersion = 10;`. -/
def kFormatVersion : Nat := 10

/-- The configuration fields of `BigHash::Config` that the verified claims
use (BigHash.h lines 33-51): `bucket_size` (a `UInt32`, default `4*1024`),
and the device range `[cache_start_offset, cache_start_offset + cache_size)`
(both `UInt64`).  The device pointer, expiry predicate, destructor callback
and bloom filter are handled by the operational model below. -/
structure Config where
  bucket_size : Nat
  cache_start_offset : Nat
  cache_size : Nat

/-- Source, BigHash.h line 48:
`UInt64 numBuckets() const { return cache_size / bucket_size; }`
(C++ unsigned integer division truncates, as `Nat` division does). -/
def Config.numBuckets (c : Config) : Nat := c.cache_size / c.bucket_size

/-- The engine fields set at construction from a `Config`
(BigHash.h lines 115-117: `bucket_size_`, `cache_base_offset_`,
`num_buckets_`). -/
structure Geom where
  bucket_size_ : Nat
  cache_base_offset_ : Nat
  num_buckets_ : Nat

/-- The geometry a `BigHash` constructed from `c` carries:
`bucket_size_ = c.bucket_size`, `cache_base_offset_ = c.cache_start_offset`,
`num_buckets_ = c.numBuckets()`. -/
def Geom.ofConfig (c : Config) : Geom :=
  { bucket_size_ := c.bucket_size
    cache_base_offset_ := c.cache_start_offset
    num_buckets_ := c.numBuckets }

/-- Source, BigHash.h line 99:
`BucketId getBucketId(HashedKey key) const
 { return BucketId{static_cast<UInt32>(key.keyHash() % num_buckets_)}; }`.
The `static_cast<UInt32>` truncates the 64-bit remainder to 32 bits. -/
def getBucketId (g : Geom) (keyHash : Nat) : Nat :=
  (keyHash % g.num_buckets_) % UINT32_MOD

/-- Source, BigHash.h line 101:
`UInt64 getBucketOffset(BucketId bucket_id) const
 { return cache_base_offset_ + bucket_size_ * bucket_id.toUnderType(); }`.
`UInt64` arithmetic wraps modulo `2^64`. -/
def getBucketOffset (g : Geom) (bucket_id : Nat) : Nat :=
  (g.cache_base_offset_ + g.bucket_size_ * bucket_id) % UINT64_MOD

/-- Source, BigHash.h line 97: the index into the `mutex_` array computed by
`getMutex`: `bucket_id.toUnderType() & (kNumMutexes - 1)`. -/
def getMutexIndex (bucket_id : Nat) : Nat :=
  bucket_id &&& (kNumMutexes - 1)

/-- Source, BigHash.h line 58:
`UInt64 getSize() const override { return bucket_size_ * num_buckets_; }`. -/
def getSize (g : Geom) : Nat :=
  (g.bucket_size_ * g.num_buckets_) % UINT64_MOD

/-- The mathematical bucket assignment the spec states:
`bucketId(key) = hash(key) mod num_buckets`, with no 32-bit truncation. -/
def bucketIdSpec (keyHash num_buckets : Nat) : Nat :=
  keyHash % num_buckets

/-- A geometry with more than `2^32` buckets, reachable from a valid
configuration (`bucket_size = 128`, `cache_size = 128 * (2^32 + 1)`,
both representable in `UInt32` / `UInt64`). -/
def hugeGeom : Geom :=
  Geom.ofConfig { bucket_size := 128, cache_start_offset := 0,
                  cache_size := 128 * (2 ^ 32 + 1) }

/-!
## Operational model of the engine

The bodies of `lookup`, `insert`, `remove`, `couldExist`, `bfReject`,
`bfRebuild`, `persist` and `recover` are declared in BigHash.h
(lines 60-104) but implemented in a `.cpp` file that is not among the
sources, so the operations below are modelled from the specification
(§3, §4.3-§4.7, §4.9, §6).  Keys are byte lists, values are byte lists,
and the device is modelled by the bucket contents held in the engine
state together with an explicit trace of device reads/writes.
-/

/-- An entry of a bucket: raw key bytes, the caller-computed 64-bit key
hash, and the value bytes (spec §3, Bucket / HashedKey). -/
structure Entry where
  key : List Nat
  keyHash : Nat
  value : List Nat
  deriving DecidableEq

/-- The model configuration: the header's `Config` fields plus the
bucket-codec overheads (spec §3: "an item whose encoded size (key + value +
entry header) exceeds `bucket_size − bucket_header_size` cannot be stored"),
the expiry predicate and whether a bloom filter is configured. -/
structure EngineConfig where
  bucket_size : Nat
  bucket_header_size : Nat
  entry_header_size : Nat
  cache_start_offset : Nat
  cache_size : Nat
  check_expired : Entry → Bool
  has_bloom_filters : Bool

/-- The geometry a `BigHash` built from this configuration carries;
`num_buckets_ = cache_size / bucket_size` as in BigHash.h line 48. -/
def EngineConfig.geom (cfg : EngineConfig) : Geom :=
  { bucket_size_ := cfg.bucket_size
    cache_base_offset_ := cfg.cache_start_offset
    num_buckets_ := cfg.cache_size / cfg.bucket_size }

/-- Number of buckets of the model configuration. -/
def EngineConfig.numBuckets (cfg : EngineConfig) : Nat :=
  cfg.geom.num_buckets_

/-- Modelled from the spec: the engine state.  Bucket contents live on the
device (spec §3: "the device is the single source of truth for bucket
contents"); the model keeps them as one list of entries per bucket, in
insertion order (front = oldest).  `filters` is `none` when no bloom filter
is configured, otherwise one segment per bucket, each segment the list of
key hashes believed to reside in that bucket. -/
structure EngineState where
  buckets : List (List Entry)
  filters : Option (List (List Nat))
  item_count : Nat
  used_size_bytes : Nat
  deriving DecidableEq

/-- A device access performed by an operation (spec §6: `readAt`/`writeAt`
on the bucket's byte range). -/
inductive DeviceOp
  | read (bucket_id : Nat)
  | write (bucket_id : Nat)
  deriving DecidableEq

/-- The status outcomes the modelled operations produce (spec §7). -/
inductive Status
  | Ok
  | NotFound
  | ItemTooLarge
  deriving DecidableEq

/-- Result of a mutating operation: status, post-state, the sequence of
destructor-callback invocations (one list element per invocation, in
order), and the device accesses performed. -/
structure OpResult where
  status : Status
  state : EngineState
  callbacks : List Entry
  device_ops : List DeviceOp
  deriving DecidableEq

/-- Encoded size of an entry inside a bucket: key + value + entry header
(spec §3). -/
def entrySize (cfg : EngineConfig) (e : Entry) : Nat :=
  e.key.length + e.value.length + cfg.entry_header_size

/-- Required entry size of a key/value pair about to be inserted
(spec §4.4: "key + value + entry header"). -/
def requiredSize (cfg : EngineConfig) (key value : List Nat) : Nat :=
  key.length + value.length + cfg.entry_header_size

/-- Space available to entries in a bucket: the bucket minus its header
(spec §3). -/
def bucketCapacity (cfg : EngineConfig) : Nat :=
  cfg.bucket_size - cfg.bucket_header_size

/-- Bytes used by the entries of a bucket. -/
def bucketUsed (cfg : EngineConfig) (b : List Entry) : Nat :=
  (b.map (entrySize cfg)).sum

/-- Modelled from the spec (§4.9): `getMaxItemSize` is
`bucket_size − bucket_header_overhead − entry_header_overhead`, the largest
key+value payload an empty bucket can store. -/
def getMaxItemSize (cfg : EngineConfig) : Nat :=
  cfg.bucket_size - cfg.bucket_header_size - cfg.entry_header_size

/-- The bucket with the given id (empty when out of range). -/
def bucketAt (st : EngineState) (bid : Nat) : List Entry :=
  st.buckets.getD bid []

/-- Modelled from the spec (§3): `bfRebuild` recomputes a bucket's bloom
segment from the bucket's actual contents — the hashes of its entries. -/
def bfRebuildBucket (b : List Entry) : List Nat :=
  b.map (·.keyHash)

/-- Modelled from the spec (§4.3, §6): `bfReject` is true when a bloom
filter is configured and the bucket's segment definitely does not contain
the key hash; with no filter nothing is rejected. -/
def bfReject (st : EngineState) (bid : Nat) (key_hash : Nat) : Bool :=
  match st.filters with
  | none => false
  | some fs => ! (fs.getD bid []).contains key_hash

/-- Modelled from the spec (§6): `couldExist` consults only the bloom
filter — no device access (second component: the empty device trace) —
and is `true` whenever the filter does not reject. -/
def couldExist (cfg : EngineConfig) (st : EngineState) (key_hash : Nat) :
    Bool × List DeviceOp :=
  (! bfReject st (getBucketId cfg.geom key_hash) key_hash, [])

/-- First entry of a bucket whose raw key bytes equal `key` exactly. -/
def findEntry (key : List Nat) (b : List Entry) : Option Entry :=
  b.find? (fun e => e.key == key)

/-- Modelled from the spec (§4.3): lookup computes the bucket id, returns
`NotFound` without any device access on a definite bloom negative,
otherwise reads the bucket, scans for an exact raw-key match, treats an
expired entry as absent, and returns the value on a hit. -/
def lookup (cfg : EngineConfig) (st : EngineState) (key : List Nat)
    (key_hash : Nat) : Status × Option (List Nat) × List DeviceOp :=
  let bid := getBucketId cfg.geom key_hash
  if bfReject st bid key_hash then (Status.NotFound, none, [])
  else
    match findEntry key (bucketAt st bid) with
    | none => (Status.NotFound, none, [DeviceOp.read bid])
    | some e =>
      if cfg.check_expired e then (Status.NotFound, none, [DeviceOp.read bid])
      else (Status.Ok, some e.value, [DeviceOp.read bid])

/-- Number of oldest entries that must be evicted from the front of a
bucket (already purged of the key being upserted) so that `need` more bytes
fit (spec §4.4: "evict the single oldest entry ... until enough room exists
or the bucket is empty"). -/
def evictCount (cfg : EngineConfig) (need : Nat) : List Entry → Nat
  | [] => 0
  | e :: rest =>
    if bucketUsed cfg (e :: rest) + need ≤ bucketCapacity cfg then 0
    else evictCount cfg need rest + 1

/-- Replace bucket `bid` with `b` and rebuild that bucket's bloom segment
from the new contents (spec §3: rebuild-from-ground-truth after any
mutation). -/
def updateBucket (st : EngineState) (bid : Nat) (b : List Entry) :
    EngineState :=
  { st with
      buckets := st.buckets.set bid b
      filters := st.filters.map fun fs => fs.set bid (bfRebuildBucket b) }

/-- Modelled from the spec (§4.4): insert fails with `ItemTooLarge` before
any device access when the required entry size exceeds what even an empty
bucket can hold; otherwise it reads the bucket, removes an existing entry
with the same key (upsert), evicts the oldest entries until the new entry
fits, appends the new entry at the back, writes the bucket, rebuilds the
bloom segment and updates the counters.  Every removed or evicted entry is
one destructor-callback invocation. -/
def insert (cfg : EngineConfig) (st : EngineState) (key : List Nat)
    (key_hash : Nat) (value : List Nat) : OpResult :=
  if bucketCapacity cfg < requiredSize cfg key value then
    ⟨Status.ItemTooLarge, st, [], []⟩
  else
    let bid := getBucketId cfg.geom key_hash
    let bucket := bucketAt st bid
    let superseded := bucket.filter (fun e => e.key == key)
    let rest := bucket.filter (fun e => ! (e.key == key))
    let k := evictCount cfg (requiredSize cfg key value) rest
    let callbacks := superseded ++ rest.take k
    let newBucket := rest.drop k ++ [Entry.mk key key_hash value]
    ⟨Status.Ok,
      { updateBucket st bid newBucket with
          item_count := st.item_count + 1 - callbacks.length
          used_size_bytes :=
            st.used_size_bytes + requiredSize cfg key value
              - (callbacks.map (entrySize cfg)).sum },
      callbacks,
      [DeviceOp.read bid, DeviceOp.write bid]⟩

/-- Modelled from the spec (§4.5): remove reads the bucket, locates the
entry by exact key match, returns `NotFound` as an idempotent no-op when
absent, otherwise removes it, invokes the destructor callback once, writes
the bucket back, rebuilds the bloom segment and decrements the counters. -/
def remove (cfg : EngineConfig) (st : EngineState) (key : List Nat)
    (key_hash : Nat) : OpResult :=
  let bid := getBucketId cfg.geom key_hash
  let bucket := bucketAt st bid
  match findEntry key bucket with
  | none => ⟨Status.NotFound, st, [], [DeviceOp.read bid]⟩
  | some e =>
    let newBucket := bucket.filter (fun e2 => ! (e2.key == key))
    ⟨Status.Ok,
      { updateBucket st bid newBucket with
          item_count := st.item_count - 1
          used_size_bytes := st.used_size_bytes - entrySize cfg e },
      [e],
      [DeviceOp.read bid, DeviceOp.write bid]⟩

/-- The freshly constructed engine: every bucket empty, bloom segments
empty when configured, counters zero. -/
def emptyState (cfg : EngineConfig) : EngineState :=
  { buckets := List.replicate cfg.numBuckets []
    filters :=
      if cfg.has_bloom_filters then some (List.replicate cfg.numBuckets [])
      else none
    item_count := 0
    used_size_bytes := 0 }

/-- Modelled from the spec (§4.7, §6): the engine-wide header `persist`
writes to the stream — format version, configuration fingerprint (bucket
size, device-region offset and size, bucket count), counters, and the
bloom-filter contents when configured.  The byte-level encoding is done by
an external serialization library, so the stream is modelled as this
decoded record. -/
structure PersistedHeader where
  version : Nat
  bucket_size : Nat
  cache_start_offset : Nat
  cache_size : Nat
  num_buckets : Nat
  item_count : Nat
  used_size_bytes : Nat
  filters : Option (List (List Nat))
  deriving DecidableEq

/-- Modelled from the spec (§4.7): `persist` serializes the format version,
the configuration fingerprint and the engine-wide state. -/
def persist (cfg : EngineConfig) (st : EngineState) : PersistedHeader :=
  { version := kFormatVersion
    bucket_size := cfg.bucket_size
    cache_start_offset := cfg.cache_start_offset
    cache_size := cfg.cache_size
    num_buckets := cfg.numBuckets
    item_count := st.item_count
    used_size_bytes := st.used_size_bytes
    filters := st.filters }

/-- Modelled from the spec (§4.7): `recover` validates the stored format
version against `kFormatVersion` and the stored configuration fingerprint
against the current configuration; on any mismatch it returns `false` and
leaves the engine state untouched, otherwise it restores counters and
bloom-filter contents and returns `true`. -/
def recover (cfg : EngineConfig) (st : EngineState) (h : PersistedHeader) :
    Bool × EngineState :=
  if h.version = kFormatVersion ∧ h.bucket_size = cfg.bucket_size ∧
      h.cache_start_offset = cfg.cache_start_offset ∧
      h.cache_size = cfg.cache_size ∧ h.num_buckets = cfg.numBuckets then
    (true,
      { st with
          item_count := h.item_count
          used_size_bytes := h.used_size_bytes
          filters := h.filters })
  else (false, st)

/-- Operations of a history, for statements about what a sequence of
mutations can produce. -/
inductive Op
  | ins (key : List Nat) (key_hash : Nat) (value : List Nat)
  | rem (key : List Nat) (key_hash : Nat)

/-- Run a history of operations from a starting state. -/
def runOps (cfg : EngineConfig) : List Op → EngineState → EngineState
  | [], st => st
  | Op.ins k h v :: ops, st => runOps cfg ops (insert cfg st k h v).state
  | Op.rem k h :: ops, st => runOps cfg ops (remove cfg st k h).state

/-- The keys a history ever passes to `insert`. -/
def insertedKeys : List Op → List (List Nat)
  | [] => []
  | Op.ins k _ _ :: ops => k :: insertedKeys ops
  | Op.rem _ _ :: ops => insertedKeys ops

/-!
## Engine invariant and helper lemmas
-/

/-- Well-formedness of an engine state: at least one bucket (the validated
configuration guarantees a region of at least one bucket), one stored list
per bucket, every entry sits in the bucket its hash selects, raw keys are
unique within a bucket (upsert semantics), and when a bloom filter is
configured each segment is complete for its bucket (spec §3: the filter
never diverges from the authoritative entry list). -/
structure WF (cfg : EngineConfig) (st : EngineState) : Prop where
  buckets_pos : 0 < cfg.numBuckets
  buckets_length : st.buckets.length = cfg.numBuckets
  placed : ∀ bid, ∀ e ∈ bucketAt st bid, getBucketId cfg.geom e.keyHash = bid
  nodup_keys : ∀ bid, ((bucketAt st bid).map (·.key)).Nodup
  filters_length : ∀ fs, st.filters = some fs → fs.length = cfg.numBuckets
  filters_complete : ∀ fs, st.filters = some fs →
    ∀ bid, ∀ e ∈ bucketAt st bid, e.keyHash ∈ fs.getD bid []

/-- Entries of the addressed bucket that the upsert step of an insert
removes: those carrying the inserted key. -/
def supersededOf (cfg : EngineConfig) (st : EngineState) (key : List Nat)
    (key_hash : Nat) : List Entry :=
  (bucketAt st (getBucketId cfg.geom key_hash)).filter (fun e => e.key == key)

/-- The addressed bucket after the upsert removal, still in insertion
order. -/
def restOf (cfg : EngineConfig) (st : EngineState) (key : List Nat)
    (key_hash : Nat) : List Entry :=
  (bucketAt st (getBucketId cfg.geom key_hash)).filter
    (fun e => ! (e.key == key))

/-- How many oldest entries the insert evicts. -/
def nEvict (cfg : EngineConfig) (st : EngineState) (key : List Nat)
    (key_hash : Nat) (value : List Nat) : Nat :=
  evictCount cfg (requiredSize cfg key value) (restOf cfg st key key_hash)

/-- The entries the insert evicts: the oldest `nEvict` of the remaining
bucket, i.e. a front segment of the insertion order. -/
def evictedOf (cfg : EngineConfig) (st : EngineState) (key : List Nat)
    (key_hash : Nat) (value : List Nat) : List Entry :=
  (restOf cfg st key key_hash).take (nEvict cfg st key key_hash value)

/-- The destructor-callback invocations of the insert: superseded entry
first, then the evicted entries in eviction order. -/
def callbacksOf (cfg : EngineConfig) (st : EngineState) (key : List Nat)
    (key_hash : Nat) (value : List Nat) : List Entry :=
  supersededOf cfg st key key_hash ++ evictedOf cfg st key key_hash value

/-- Bucket contents the insert writes back: survivors in insertion order
with the new entry appended at the back. -/
def newBucketOf (cfg : EngineConfig) (st : EngineState) (key : List Nat)
    (key_hash : Nat) (value : List Nat) : List Entry :=
  (restOf cfg st key key_hash).drop (nEvict cfg st key key_hash value) ++
    [Entry.mk key key_hash value]

/-- A concrete configuration for the witnesses below: bucket size 16 with
no codec overheads, a device region of exactly one bucket, no expiry, and
a bloom filter configured. -/
def cfgW : EngineConfig :=
  { bucket_size := 16, bucket_header_size := 0, entry_header_size := 0,
    cache_start_offset := 0, cache_size := 16,
    check_expired := fun _ => false, has_bloom_filters := true }

/-- A concrete state of `cfgW` holding two 7-byte entries in its single
bucket. -/
def stW : EngineState :=
  (insert cfgW
    (insert cfgW (emptyState cfgW) [1] 11 (List.replicate 6 1)).state
    [2] 12 (List.replicate 6 2)).state

/-- A configuration with `bucket_size = 128` and nonzero codec overheads
for the C3 witness. -/
def cfgC3 : EngineConfig :=
  { bucket_size := 128, bucket_header_size := 5, entry_header_size := 4,
    cache_start_offset := 0, cache_size := 1280,
    check_expired := fun _ => false, has_bloom_filters := false }

/-- A persisted header with an unrecognized format version 9 (the engine's
is 10) but a fingerprint matching `cfgW`. -/
def hdrBad : PersistedHeader :=
  { version := 9, bucket_size := 16, cache_start_offset := 0,
    cache_size := 16, num_buckets := 1, item_count := 3,
    used_size_bytes := 21, filters := none }

/-!
## Theorems
-/

/-- C1, counterexample: with `num_buckets = 2^32 + 1` (a configuration the
engine accepts) and key hash `2^32`, the code's bucket id is `0` while
`hash mod num_buckets = 2^32`: the claimed equality
`bucketId(key) = hash(key) mod num_buckets` fails, because `getBucketId`
truncates the remainder to 32 bits. -/
theorem getBucketId_ne_spec_counterexample :
    hugeGeom.num_buckets_ = 2 ^ 32 + 1 ∧
    getBucketId hugeGeom (2 ^ 32) = 0 ∧
    bucketIdSpec (2 ^ 32) hugeGeom.num_buckets_ = 2 ^ 32 ∧
    getBucketId hugeGeom (2 ^ 32) ≠ bucketIdSpec (2 ^ 32) hugeGeom.num_buckets_ := by
  refine ⟨rfl, ?_, ?_, ?_⟩
  · show (2 ^ 32 % (2 ^ 32 + 1)) % 2 ^ 32 = 0
    norm_num
  · show 2 ^ 32 % (2 ^ 32 + 1) = 2 ^ 32
    norm_num
  · show (2 ^ 32 % (2 ^ 32 + 1)) % 2 ^ 32 ≠ 2 ^ 32 % (2 ^ 32 + 1)
    norm_num

/-- C1, amended: whenever the bucket count does not exceed `2^32` (so the
`static_cast<UInt32>` truncation is the identity), the engine assigns every
hashed key to the bucket `hash mod num_buckets`, and the assignment is a
deterministic function of the key hash and the bucket count alone: any two
engine geometries with the same `num_buckets_` assign every hash the same
bucket. -/
theorem getBucketId_eq_spec (g : Geom) (keyHash : Nat)
    (hpos : 0 < g.num_buckets_) (hsmall : g.num_buckets_ ≤ UINT32_MOD) :
    getBucketId g keyHash = bucketIdSpec keyHash g.num_buckets_ ∧
    (∀ g' : Geom, g'.num_buckets_ = g.num_buckets_ →
      getBucketId g' keyHash = getBucketId g keyHash) := by
  constructor
  · unfold getBucketId bucketIdSpec
    exact Nat.mod_eq_of_lt (lt_of_lt_of_le (Nat.mod_lt _ hpos) hsmall)
  · intro g' hg
    unfold getBucketId
    rw [hg]

/-- C1 witness: the amended theorem applied at a concrete geometry
(4 buckets) and hash 10: bucket id `10 mod 4 = 2`. -/
theorem getBucketId_eq_spec_witness :
    0 < (Geom.mk 128 0 4).num_buckets_ ∧
    (Geom.mk 128 0 4).num_buckets_ ≤ UINT32_MOD ∧
    getBucketId (Geom.mk 128 0 4) 10 = bucketIdSpec 10 4 :=
  ⟨by decide, by decide,
    (getBucketId_eq_spec (Geom.mk 128 0 4) 10 (by decide) (by decide)).1⟩

/-- C10: for every geometry with at least one bucket, `getBucketId` always
lands in `[0, num_buckets)` despite the 32-bit truncation; and the
truncation is the identity for every 64-bit hash precisely when
`num_buckets ≤ 2^32`. -/
theorem getBucketId_lt_numBuckets (g : Geom) (hpos : 0 < g.num_buckets_) :
    (∀ keyHash : Nat, getBucketId g keyHash < g.num_buckets_) ∧
    ((∀ keyHash : Nat, keyHash < UINT64_MOD →
        getBucketId g keyHash = keyHash % g.num_buckets_) ↔
      g.num_buckets_ ≤ UINT32_MOD) := by
  constructor
  · intro keyHash
    calc getBucketId g keyHash ≤ keyHash % g.num_buckets_ := Nat.mod_le _ _
    _ < g.num_buckets_ := Nat.mod_lt _ hpos
  · constructor
    · intro hid
      by_contra hbig
      push_neg at hbig
      have h32 : (2 : Nat) ^ 32 < g.num_buckets_ := hbig
      have h64 : (2 : Nat) ^ 32 < UINT64_MOD := by
        unfold UINT64_MOD; norm_num
      have := hid (2 ^ 32) h64
      unfold getBucketId UINT32_MOD at this
      rw [Nat.mod_eq_of_lt h32, Nat.mod_self] at this
      exact absurd this (by norm_num)
    · intro hsmall keyHash _
      exact (getBucketId_eq_spec g keyHash hpos hsmall).1

/-- C10 witness: the theorem applied at a concrete 4-bucket geometry;
`getBucketId` of hash 10 is below 4, and since `4 ≤ 2^32` the truncation is
the identity there. -/
theorem getBucketId_lt_numBuckets_witness :
    0 < (Geom.mk 128 0 4).num_buckets_ ∧
    getBucketId (Geom.mk 128 0 4) 10 < (Geom.mk 128 0 4).num_buckets_ ∧
    (Geom.mk 128 0 4).num_buckets_ ≤ UINT32_MOD :=
  ⟨by decide, (getBucketId_lt_numBuckets (Geom.mk 128 0 4) (by decide)).1 10,
    by decide⟩

/-- C9: the lock index is `bucketId & (kNumMutexes - 1)` with
`kNumMutexes = 16 * 1024 = 2^14`, a constant independent of the bucket
count and a power of two (the header's `static_assert`), and for every
bucket id the computed index is below `kNumMutexes`, so the selection never
reads outside the mutex array. -/
theorem getMutexIndex_lt_kNumMutexes :
    kNumMutexes = 2 ^ 14 ∧
    kNumMutexes &&& (kNumMutexes - 1) = 0 ∧
    ∀ bucket_id : Nat, getMutexIndex bucket_id < kNumMutexes := by
  refine ⟨by decide, by decide, ?_⟩
  intro bucket_id
  unfold getMutexIndex kNumMutexes
  calc bucket_id &&& (16 * 1024 - 1) ≤ 16 * 1024 - 1 := Nat.and_le_right
  _ < 16 * 1024 := by decide

/-- C8: `num_buckets = cache_size / bucket_size` (integer division), and for
every bucket id `b < num_buckets` the byte range
`[getBucketOffset(b), getBucketOffset(b) + bucket_size)` ends no later than
`cache_start_offset + bucket_size * num_buckets` — so the remainder bytes
past the last full bucket are never addressed — which in turn lies inside
the configured region `[cache_start_offset, cache_start_offset +
cache_size)`.  The hypotheses are the constraints `Config::validate`
enforces: a nonzero bucket size and a device region representable in
`UInt64` (so the `UInt64` offset arithmetic does not wrap). -/
theorem getBucketOffset_in_region (c : Config) (b : Nat)
    (hbs : 0 < c.bucket_size)
    (hfit : c.cache_start_offset + c.cache_size < UINT64_MOD)
    (hb : b < c.numBuckets) :
    c.numBuckets = c.cache_size / c.bucket_size ∧
    c.cache_start_offset ≤ getBucketOffset (Geom.ofConfig c) b ∧
    getBucketOffset (Geom.ofConfig c) b + c.bucket_size ≤
      c.cache_start_offset + c.bucket_size * c.numBuckets ∧
    c.cache_start_offset + c.bucket_size * c.numBuckets ≤
      c.cache_start_offset + c.cache_size := by
  have hmulnb : c.bucket_size * (b + 1) ≤ c.bucket_size * c.numBuckets :=
    Nat.mul_le_mul_left _ hb
  have hnbcs : c.bucket_size * c.numBuckets ≤ c.cache_size := by
    calc c.bucket_size * c.numBuckets
        = c.cache_size / c.bucket_size * c.bucket_size := Nat.mul_comm _ _
    _ ≤ c.cache_size := Nat.div_mul_le_self _ _
  have hsplit : c.bucket_size * b + c.bucket_size =
      c.bucket_size * (b + 1) := by ring
  have hraw : c.cache_start_offset + c.bucket_size * b + c.bucket_size ≤
      c.cache_start_offset + c.bucket_size * c.numBuckets := by
    omega
  have hnowrap : c.cache_start_offset + c.bucket_size * b < UINT64_MOD := by
    omega
  have hoff : getBucketOffset (Geom.ofConfig c) b =
      c.cache_start_offset + c.bucket_size * b := by
    unfold getBucketOffset Geom.ofConfig
    exact Nat.mod_eq_of_lt hnowrap
  refine ⟨rfl, ?_, ?_, ?_⟩
  · rw [hoff]; exact Nat.le_add_right _ _
  · rw [hoff]; exact hraw
  · omega

/-- C8 witness: the theorem applied at a concrete configuration
(bucket size 128, region `[1000, 1000 + 1000)`, hence 7 buckets and 104
unused trailing bytes) and bucket id 6: its range ends at
`1000 + 128*7 = 1896`, before the remainder bytes `[1896, 2000)`. -/
theorem getBucketOffset_in_region_witness :
    0 < (Config.mk 128 1000 1000).bucket_size ∧
    (Config.mk 128 1000 1000).cache_start_offset +
      (Config.mk 128 1000 1000).cache_size < UINT64_MOD ∧
    6 < (Config.mk 128 1000 1000).numBuckets ∧
    1000 ≤ getBucketOffset (Geom.ofConfig (Config.mk 128 1000 1000)) 6 ∧
    getBucketOffset (Geom.ofConfig (Config.mk 128 1000 1000)) 6 + 128 ≤
      1000 + 128 * (Config.mk 128 1000 1000).numBuckets ∧
    1000 + 128 * (Config.mk 128 1000 1000).numBuckets ≤ 2000 := by
  have h := getBucketOffset_in_region (Config.mk 128 1000 1000) 6
    (by decide) (by decide) (by decide)
  exact ⟨by decide, by decide, by decide, h.2.1, h.2.2.1, h.2.2.2⟩

theorem getD_set_eq {α : Type} (l : List α) (i : Nat) (x d : α)
    (h : i < l.length) : (l.set i x).getD i d = x := by
  simp [List.getD, List.getElem?_set_eq_of_lt, h]

theorem getD_set_ne {α : Type} (l : List α) (i j : Nat) (x d : α)
    (h : i ≠ j) : (l.set i x).getD j d = l.getD j d := by
  simp [List.getD, List.getElem?_set_ne h]

/-- `getBucketId` stays below the bucket count (the 32-bit truncation only
shrinks the remainder). -/
theorem bucketId_lt (g : Geom) (hpos : 0 < g.num_buckets_) (keyHash : Nat) :
    getBucketId g keyHash < g.num_buckets_ :=
  lt_of_le_of_lt (Nat.mod_le _ _) (Nat.mod_lt _ hpos)

theorem bucketAt_updateBucket_eq (st : EngineState) (bid : Nat)
    (b : List Entry) (h : bid < st.buckets.length) :
    bucketAt (updateBucket st bid b) bid = b :=
  getD_set_eq _ _ _ _ h

theorem bucketAt_updateBucket_ne (st : EngineState) (bid bid2 : Nat)
    (b : List Entry) (h : bid ≠ bid2) :
    bucketAt (updateBucket st bid b) bid2 = bucketAt st bid2 :=
  getD_set_ne _ _ _ _ _ h

theorem filters_updateBucket (st : EngineState) (bid : Nat) (b : List Entry)
    (fs : List (List Nat)) (h : st.filters = some fs) :
    (updateBucket st bid b).filters = some (fs.set bid (bfRebuildBucket b)) := by
  simp [updateBucket, h]

theorem filters_updateBucket_none (st : EngineState) (bid : Nat)
    (b : List Entry) (h : st.filters = none) :
    (updateBucket st bid b).filters = none := by
  simp [updateBucket, h]

theorem bucketAt_emptyState (cfg : EngineConfig) (bid : Nat) :
    bucketAt (emptyState cfg) bid = [] := by
  unfold bucketAt emptyState
  rcases Nat.lt_or_ge bid cfg.numBuckets with h | h
  · simp [List.getD, List.getElem?_replicate, h]
  · simp [List.getD, List.getElem?_replicate, Nat.not_lt.mpr h]

/-- The freshly constructed engine is well-formed. -/
theorem WF_emptyState (cfg : EngineConfig) (hpos : 0 < cfg.numBuckets) :
    WF cfg (emptyState cfg) := by
  constructor
  · exact hpos
  · simp [emptyState]
  · intro bid e he; rw [bucketAt_emptyState] at he; cases he
  · intro bid; rw [bucketAt_emptyState]; exact List.nodup_nil
  · intro fs hfs
    unfold emptyState at hfs
    rcases hb : cfg.has_bloom_filters with _ | _ <;> simp [hb] at hfs
    rw [← hfs]; simp
  · intro fs hfs bid e he; rw [bucketAt_emptyState] at he; cases he

/-- `find?` skips a block in which every element fails the predicate. -/
theorem find?_append_none {α : Type} (p : α → Bool) (l1 l2 : List α)
    (h : ∀ x ∈ l1, p x = false) :
    (l1 ++ l2).find? p = l2.find? p := by
  rw [List.find?_append]
  have h1 : l1.find? p = none := by
    rw [List.find?_eq_none]
    intro x hx
    simp [h x hx]
  simp [h1]

/-- With pairwise-distinct keys, `find?` for a key returns the member entry
that carries it. -/
theorem find?_key_of_mem (key : List Nat) (b : List Entry) (e : Entry)
    (hnd : (b.map (·.key)).Nodup) (hmem : e ∈ b) (hkey : e.key = key) :
    b.find? (fun x => x.key == key) = some e := by
  induction b with
  | nil => cases hmem
  | cons a t ih =>
    rcases List.mem_cons.mp hmem with rfl | hmt
    · rw [List.find?_cons_of_pos]
      simp [hkey]
    · have hne : a.key ≠ key := by
        intro hak
        have : e.key ∈ t.map (·.key) := List.mem_map_of_mem _ hmt
        rw [hkey, ← hak] at this
        exact (List.nodup_cons.mp hnd).1 this
      rw [List.find?_cons_of_neg]
      · exact ih (List.nodup_cons.mp hnd).2 hmt
      · simp [hne]

/-- A lookup hit lemma: a stored, unexpired entry whose raw key and hash
match the query is returned. -/
theorem lookup_hit (cfg : EngineConfig) (st : EngineState) (e : Entry)
    (hwf : WF cfg st)
    (hmem : e ∈ bucketAt st (getBucketId cfg.geom e.keyHash))
    (hexp : cfg.check_expired e = false) :
    lookup cfg st e.key e.keyHash =
      (Status.Ok, some e.value,
        [DeviceOp.read (getBucketId cfg.geom e.keyHash)]) := by
  have hbf : bfReject st (getBucketId cfg.geom e.keyHash) e.keyHash = false := by
    rcases hfs : st.filters with _ | fs
    · simp only [bfReject, hfs]
    · have hcin := hwf.filters_complete fs hfs _ e hmem
      have hcontains : (fs.getD (getBucketId cfg.geom e.keyHash) []).contains
          e.keyHash = true := List.elem_eq_true_of_mem hcin
      simp only [bfReject, hfs, hcontains, Bool.not_true]
  have hfind : findEntry e.key
      (bucketAt st (getBucketId cfg.geom e.keyHash)) = some e :=
    find?_key_of_mem e.key _ e (hwf.nodup_keys _) hmem rfl
  simp [lookup, hbf, hfind, hexp]

/-- A lookup miss lemma: when no entry of the addressed bucket carries the
queried raw key bytes, the status is `NotFound` — exact byte equality is
required, matching hashes alone produce no hit. -/
theorem lookup_no_key (cfg : EngineConfig) (st : EngineState)
    (key : List Nat) (key_hash : Nat)
    (habs : ∀ e ∈ bucketAt st (getBucketId cfg.geom key_hash), e.key ≠ key) :
    (lookup cfg st key key_hash).1 = Status.NotFound := by
  rcases hbf : bfReject st (getBucketId cfg.geom key_hash) key_hash with _ | _
  · have hfind : findEntry key
        (bucketAt st (getBucketId cfg.geom key_hash)) = none := by
      unfold findEntry
      rw [List.find?_eq_none]
      intro e he
      simp [habs e he]
    simp [lookup, hbf, hfind]
  · simp [lookup, hbf]

/-- Shape of a successful insert. -/
theorem insert_ok (cfg : EngineConfig) (st : EngineState) (key : List Nat)
    (key_hash : Nat) (value : List Nat)
    (hfit : requiredSize cfg key value ≤ bucketCapacity cfg) :
    insert cfg st key key_hash value =
      ⟨Status.Ok,
        { updateBucket st (getBucketId cfg.geom key_hash)
            (newBucketOf cfg st key key_hash value) with
            item_count :=
              st.item_count + 1 - (callbacksOf cfg st key key_hash value).length
            used_size_bytes :=
              st.used_size_bytes + requiredSize cfg key value -
                ((callbacksOf cfg st key key_hash value).map (entrySize cfg)).sum },
        callbacksOf cfg st key key_hash value,
        [DeviceOp.read (getBucketId cfg.geom key_hash),
          DeviceOp.write (getBucketId cfg.geom key_hash)]⟩ := by
  unfold insert
  rw [if_neg (Nat.not_lt.mpr hfit)]
  rfl

/-- A failed `findEntry` makes `remove` an idempotent no-op. -/
theorem remove_not_found (cfg : EngineConfig) (st : EngineState)
    (key : List Nat) (key_hash : Nat)
    (hfind : findEntry key (bucketAt st (getBucketId cfg.geom key_hash)) = none) :
    remove cfg st key key_hash =
      ⟨Status.NotFound, st, [], [DeviceOp.read (getBucketId cfg.geom key_hash)]⟩ := by
  simp only [remove, hfind]

/-- Shape of a successful remove. -/
theorem remove_found (cfg : EngineConfig) (st : EngineState)
    (key : List Nat) (key_hash : Nat) (e : Entry)
    (hfind : findEntry key (bucketAt st (getBucketId cfg.geom key_hash)) = some e) :
    remove cfg st key key_hash =
      ⟨Status.Ok,
        { updateBucket st (getBucketId cfg.geom key_hash)
            ((bucketAt st (getBucketId cfg.geom key_hash)).filter
              (fun e2 => ! (e2.key == key))) with
            item_count := st.item_count - 1
            used_size_bytes := st.used_size_bytes - entrySize cfg e },
        [e],
        [DeviceOp.read (getBucketId cfg.geom key_hash),
          DeviceOp.write (getBucketId cfg.geom key_hash)]⟩ := by
  simp only [remove, hfind]

/-- Evicting `evictCount` entries always stops within the bucket. -/
theorem evictCount_le_length (cfg : EngineConfig) (need : Nat)
    (l : List Entry) : evictCount cfg need l ≤ l.length := by
  induction l with
  | nil => simp [evictCount]
  | cons e rest ih =>
    unfold evictCount
    split
    · simp
    · simpa using Nat.succ_le_succ ih

/-- After evicting `evictCount` entries the new entry fits (provided it can
fit an empty bucket at all). -/
theorem bucketUsed_drop_evictCount (cfg : EngineConfig) (need : Nat)
    (l : List Entry) (hfit : need ≤ bucketCapacity cfg) :
    bucketUsed cfg (l.drop (evictCount cfg need l)) + need ≤
      bucketCapacity cfg := by
  induction l with
  | nil => simpa [evictCount, bucketUsed]
  | cons e rest ih =>
    unfold evictCount
    split
    · simpa
    · simpa using ih

/-- Each eviction was necessary: before the last eviction of the loop
(indeed before every eviction), the entry did not fit yet. -/
theorem bucketUsed_drop_lt_evictCount (cfg : EngineConfig) (need : Nat)
    (l : List Entry) (j : Nat) (hj : j < evictCount cfg need l) :
    bucketCapacity cfg < bucketUsed cfg (l.drop j) + need := by
  induction l generalizing j with
  | nil => simp [evictCount] at hj
  | cons e rest ih =>
    unfold evictCount at hj
    split at hj
    · exact absurd hj (Nat.not_lt_zero j)
    · rename_i hnofit
      cases j with
      | zero => simpa using Nat.lt_of_not_le hnofit
      | succ n =>
        rw [List.drop_succ_cons]
        exact ih n (Nat.lt_of_succ_lt_succ hj)

/-- Entries that survive the upsert removal do not carry the inserted
key. -/
theorem restOf_key_ne (cfg : EngineConfig) (st : EngineState)
    (key : List Nat) (key_hash : Nat) (e : Entry)
    (he : e ∈ restOf cfg st key key_hash) : e.key ≠ key := by
  have h := (List.mem_filter.mp he).2
  simpa using h

theorem insert_state_buckets (cfg : EngineConfig) (st : EngineState)
    (key : List Nat) (key_hash : Nat) (value : List Nat)
    (hfit : requiredSize cfg key value ≤ bucketCapacity cfg) :
    (insert cfg st key key_hash value).state.buckets =
      st.buckets.set (getBucketId cfg.geom key_hash)
        (newBucketOf cfg st key key_hash value) := by
  rw [insert_ok cfg st key key_hash value hfit]
  rfl

theorem insert_state_filters (cfg : EngineConfig) (st : EngineState)
    (key : List Nat) (key_hash : Nat) (value : List Nat)
    (hfit : requiredSize cfg key value ≤ bucketCapacity cfg) :
    (insert cfg st key key_hash value).state.filters =
      st.filters.map fun fs =>
        fs.set (getBucketId cfg.geom key_hash)
          (bfRebuildBucket (newBucketOf cfg st key key_hash value)) := by
  rw [insert_ok cfg st key key_hash value hfit]
  rfl

theorem bucketAt_insert_self (cfg : EngineConfig) (st : EngineState)
    (key : List Nat) (key_hash : Nat) (value : List Nat)
    (hfit : requiredSize cfg key value ≤ bucketCapacity cfg)
    (hlt : getBucketId cfg.geom key_hash < st.buckets.length) :
    bucketAt (insert cfg st key key_hash value).state
        (getBucketId cfg.geom key_hash) =
      newBucketOf cfg st key key_hash value := by
  unfold bucketAt
  rw [insert_state_buckets cfg st key key_hash value hfit]
  exact getD_set_eq _ _ _ _ hlt

theorem bucketAt_insert_other (cfg : EngineConfig) (st : EngineState)
    (key : List Nat) (key_hash : Nat) (value : List Nat)
    (hfit : requiredSize cfg key value ≤ bucketCapacity cfg) (bid2 : Nat)
    (hne : getBucketId cfg.geom key_hash ≠ bid2) :
    bucketAt (insert cfg st key key_hash value).state bid2 =
      bucketAt st bid2 := by
  unfold bucketAt
  rw [insert_state_buckets cfg st key key_hash value hfit]
  exact getD_set_ne _ _ _ _ _ hne

/-- A successful insert preserves the engine invariant. -/
theorem WF_insert (cfg : EngineConfig) (st : EngineState) (key : List Nat)
    (key_hash : Nat) (value : List Nat) (hwf : WF cfg st) :
    WF cfg (insert cfg st key key_hash value).state := by
  rcases Nat.lt_or_ge (bucketCapacity cfg) (requiredSize cfg key value) with
    hbig | hfit
  · unfold insert
    rw [if_pos hbig]
    exact hwf
  · have hlt : getBucketId cfg.geom key_hash < st.buckets.length := by
      rw [hwf.buckets_length]
      exact bucketId_lt cfg.geom hwf.buckets_pos key_hash
    have hsub : ∀ e ∈ newBucketOf cfg st key key_hash value,
        e ∈ restOf cfg st key key_hash ∨ e = Entry.mk key key_hash value := by
      intro e he
      rcases List.mem_append.mp he with hd | hn
      · exact Or.inl (List.mem_of_mem_drop hd)
      · exact Or.inr (by simpa using hn)
    constructor
    · exact hwf.buckets_pos
    · rw [insert_state_buckets cfg st key key_hash value hfit]
      simpa using hwf.buckets_length
    · intro bid2 e he
      by_cases hb : getBucketId cfg.geom key_hash = bid2
      · subst hb
        rw [bucketAt_insert_self cfg st key key_hash value hfit hlt] at he
        rcases hsub e he with hold | rfl
        · exact hwf.placed _ e (List.mem_of_mem_filter hold)
        · rfl
      · rw [bucketAt_insert_other cfg st key key_hash value hfit _ hb] at he
        exact hwf.placed _ e he
    · intro bid2
      by_cases hb : getBucketId cfg.geom key_hash = bid2
      · subst hb
        rw [bucketAt_insert_self cfg st key key_hash value hfit hlt]
        unfold newBucketOf
        rw [List.map_append, List.nodup_append]
        refine ⟨?_, by simp, ?_⟩
        · have h1 : ((restOf cfg st key key_hash).map (·.key)).Nodup := by
            have hs :=
              (List.filter_sublist
                (l := bucketAt st (getBucketId cfg.geom key_hash))
                (p := fun e => ! (e.key == key))).map (f := (·.key))
            exact (hwf.nodup_keys _).sublist hs
          exact h1.sublist ((List.drop_sublist _ _).map _)
        · intro a ha hb2
          rcases List.mem_map.mp ha with ⟨e, hed, rfl⟩
          have hne := restOf_key_ne cfg st key key_hash e
            (List.mem_of_mem_drop hed)
          simp only [List.map_cons, List.map_nil, List.mem_singleton] at hb2
          exact hne hb2
      · rw [bucketAt_insert_other cfg st key key_hash value hfit _ hb]
        exact hwf.nodup_keys _
    · intro fs2 hfs2
      rw [insert_state_filters cfg st key key_hash value hfit] at hfs2
      rcases hfs : st.filters with _ | fs
      · rw [hfs] at hfs2; simp at hfs2
      · rw [hfs] at hfs2
        simp only [Option.map_some'] at hfs2
        rw [← Option.some.inj hfs2]
        simpa using hwf.filters_length fs hfs
    · intro fs2 hfs2 bid2 e he
      rw [insert_state_filters cfg st key key_hash value hfit] at hfs2
      rcases hfs : st.filters with _ | fs
      · rw [hfs] at hfs2; simp at hfs2
      · rw [hfs] at hfs2
        simp only [Option.map_some'] at hfs2
        rw [← Option.some.inj hfs2]
        by_cases hb : getBucketId cfg.geom key_hash = bid2
        · subst hb
          rw [bucketAt_insert_self cfg st key key_hash value hfit hlt] at he
          have hltf : getBucketId cfg.geom key_hash < fs.length := by
            rw [hwf.filters_length fs hfs]
            exact bucketId_lt cfg.geom hwf.buckets_pos key_hash
          rw [getD_set_eq _ _ _ _ hltf]
          exact List.mem_map_of_mem _ he
        · rw [bucketAt_insert_other cfg st key key_hash value hfit _ hb] at he
          rw [getD_set_ne _ _ _ _ _ hb]
          exact hwf.filters_complete fs hfs bid2 e he

/-- Every entry of a post-insert bucket was already stored, or carries the
inserted key. -/
theorem mem_insert_state (cfg : EngineConfig) (st : EngineState)
    (key : List Nat) (key_hash : Nat) (value : List Nat) (e : Entry)
    (bid2 : Nat)
    (he : e ∈ bucketAt (insert cfg st key key_hash value).state bid2) :
    e ∈ bucketAt st bid2 ∨ e.key = key := by
  rcases Nat.lt_or_ge (bucketCapacity cfg) (requiredSize cfg key value) with
    hbig | hfit
  · left
    unfold insert at he
    rw [if_pos hbig] at he
    exact he
  · by_cases hb : getBucketId cfg.geom key_hash = bid2
    · subst hb
      rcases Nat.lt_or_ge (getBucketId cfg.geom key_hash) st.buckets.length
        with hlt | hge
      · rw [bucketAt_insert_self cfg st key key_hash value hfit hlt] at he
        rcases List.mem_append.mp he with hd | hn
        · exact Or.inl (List.mem_of_mem_filter (List.mem_of_mem_drop hd))
        · right
          have : e = Entry.mk key key_hash value := by simpa using hn
          rw [this]
      · left
        unfold bucketAt at he ⊢
        rw [insert_state_buckets cfg st key key_hash value hfit,
          List.set_eq_of_length_le hge] at he
        exact he
    · left
      rw [bucketAt_insert_other cfg st key key_hash value hfit _ hb] at he
      exact he

theorem remove_state_buckets (cfg : EngineConfig) (st : EngineState)
    (key : List Nat) (key_hash : Nat) (e0 : Entry)
    (hfind : findEntry key (bucketAt st (getBucketId cfg.geom key_hash)) =
      some e0) :
    (remove cfg st key key_hash).state.buckets =
      st.buckets.set (getBucketId cfg.geom key_hash)
        ((bucketAt st (getBucketId cfg.geom key_hash)).filter
          (fun e2 => ! (e2.key == key))) := by
  rw [remove_found cfg st key key_hash e0 hfind]
  rfl

/-- Every entry of a post-remove bucket was already stored. -/
theorem mem_remove_state (cfg : EngineConfig) (st : EngineState)
    (key : List Nat) (key_hash : Nat) (e : Entry) (bid2 : Nat)
    (he : e ∈ bucketAt (remove cfg st key key_hash).state bid2) :
    e ∈ bucketAt st bid2 := by
  rcases hfind : findEntry key (bucketAt st (getBucketId cfg.geom key_hash))
    with _ | e0
  · rw [remove_not_found cfg st key key_hash hfind] at he
    exact he
  · have hbk := remove_state_buckets cfg st key key_hash e0 hfind
    unfold bucketAt at he ⊢
    rw [hbk] at he
    by_cases hb : getBucketId cfg.geom key_hash = bid2
    · subst hb
      rcases Nat.lt_or_ge (getBucketId cfg.geom key_hash) st.buckets.length
        with hlt | hge
      · rw [getD_set_eq _ _ _ _ hlt] at he
        exact List.mem_of_mem_filter he
      · rw [List.set_eq_of_length_le hge] at he
        exact he
    · rw [getD_set_ne _ _ _ _ _ hb] at he
      exact he

/-- Every key stored after running a history was inserted by the history or
already stored before it. -/
theorem key_mem_runOps (cfg : EngineConfig) (ops : List Op)
    (st : EngineState) (e : Entry) (bid : Nat)
    (he : e ∈ bucketAt (runOps cfg ops st) bid) :
    e.key ∈ insertedKeys ops ∨
      ∃ bid0, ∃ e0 ∈ bucketAt st bid0, e0.key = e.key := by
  induction ops generalizing st with
  | nil => exact Or.inr ⟨bid, e, he, rfl⟩
  | cons op ops ih =>
    cases op with
    | ins k h v =>
      rcases ih ((insert cfg st k h v).state) he with hin | ⟨bid0, e0, he0, hk⟩
      · exact Or.inl (List.mem_cons_of_mem _ hin)
      · rcases mem_insert_state cfg st k h v e0 bid0 he0 with hold | hkey
        · exact Or.inr ⟨bid0, e0, hold, hk⟩
        · left
          have hek : e.key = k := by rw [← hk, hkey]
          show e.key ∈ k :: insertedKeys ops
          rw [hek]
          exact List.mem_cons_self _ _
    | rem k h =>
      rcases ih ((remove cfg st k h).state) he with hin | ⟨bid0, e0, he0, hk⟩
      · exact Or.inl hin
      · exact Or.inr ⟨bid0, e0, mem_remove_state cfg st k h e0 bid0 he0, hk⟩

/-- Looking up a key immediately after inserting it returns the inserted
value. -/
theorem lookup_insert_self (cfg : EngineConfig) (st : EngineState)
    (key : List Nat) (key_hash : Nat) (value : List Nat) (hwf : WF cfg st)
    (hfit : requiredSize cfg key value ≤ bucketCapacity cfg)
    (hexp : cfg.check_expired (Entry.mk key key_hash value) = false) :
    lookup cfg (insert cfg st key key_hash value).state key key_hash =
      (Status.Ok, some value,
        [DeviceOp.read (getBucketId cfg.geom key_hash)]) := by
  have hwf2 := WF_insert cfg st key key_hash value hwf
  have hlt : getBucketId cfg.geom key_hash < st.buckets.length := by
    rw [hwf.buckets_length]
    exact bucketId_lt cfg.geom hwf.buckets_pos key_hash
  have hmem : Entry.mk key key_hash value ∈
      bucketAt (insert cfg st key key_hash value).state
        (getBucketId cfg.geom key_hash) := by
    rw [bucketAt_insert_self cfg st key key_hash value hfit hlt]
    exact List.mem_append_right _ (List.mem_singleton_self _)
  exact lookup_hit cfg _ (Entry.mk key key_hash value) hwf2 hmem hexp

theorem remove_state_filters (cfg : EngineConfig) (st : EngineState)
    (key : List Nat) (key_hash : Nat) (e0 : Entry)
    (hfind : findEntry key (bucketAt st (getBucketId cfg.geom key_hash)) =
      some e0) :
    (remove cfg st key key_hash).state.filters =
      st.filters.map fun fs =>
        fs.set (getBucketId cfg.geom key_hash)
          (bfRebuildBucket
            ((bucketAt st (getBucketId cfg.geom key_hash)).filter
              (fun e2 => ! (e2.key == key)))) := by
  rw [remove_found cfg st key key_hash e0 hfind]
  rfl

/-- A remove preserves the engine invariant. -/
theorem WF_remove (cfg : EngineConfig) (st : EngineState) (key : List Nat)
    (key_hash : Nat) (hwf : WF cfg st) :
    WF cfg (remove cfg st key key_hash).state := by
  rcases hfind : findEntry key (bucketAt st (getBucketId cfg.geom key_hash))
    with _ | e0
  · rw [remove_not_found cfg st key key_hash hfind]
    exact hwf
  · have hbk := remove_state_buckets cfg st key key_hash e0 hfind
    have hfl := remove_state_filters cfg st key key_hash e0 hfind
    have hlt : getBucketId cfg.geom key_hash < st.buckets.length := by
      rw [hwf.buckets_length]
      exact bucketId_lt cfg.geom hwf.buckets_pos key_hash
    constructor
    · exact hwf.buckets_pos
    · rw [hbk]
      simpa using hwf.buckets_length
    · intro bid2 e he
      unfold bucketAt at he
      rw [hbk] at he
      by_cases hb : getBucketId cfg.geom key_hash = bid2
      · subst hb
        rw [getD_set_eq _ _ _ _ hlt] at he
        exact hwf.placed _ e (List.mem_of_mem_filter he)
      · rw [getD_set_ne _ _ _ _ _ hb] at he
        exact hwf.placed _ e he
    · intro bid2
      unfold bucketAt
      rw [hbk]
      by_cases hb : getBucketId cfg.geom key_hash = bid2
      · subst hb
        rw [getD_set_eq _ _ _ _ hlt]
        have hs :=
          (List.filter_sublist
            (l := bucketAt st (getBucketId cfg.geom key_hash))
            (p := fun e2 => ! (e2.key == key))).map (f := (·.key))
        exact (hwf.nodup_keys _).sublist hs
      · rw [getD_set_ne _ _ _ _ _ hb]
        exact hwf.nodup_keys _
    · intro fs2 hfs2
      rw [hfl] at hfs2
      rcases hfs : st.filters with _ | fs
      · rw [hfs] at hfs2; simp at hfs2
      · rw [hfs] at hfs2
        simp only [Option.map_some'] at hfs2
        rw [← Option.some.inj hfs2]
        simpa using hwf.filters_length fs hfs
    · intro fs2 hfs2 bid2 e he
      rw [hfl] at hfs2
      rcases hfs : st.filters with _ | fs
      · rw [hfs] at hfs2; simp at hfs2
      · rw [hfs] at hfs2
        simp only [Option.map_some'] at hfs2
        rw [← Option.some.inj hfs2]
        unfold bucketAt at he
        rw [hbk] at he
        by_cases hb : getBucketId cfg.geom key_hash = bid2
        · subst hb
          rw [getD_set_eq _ _ _ _ hlt] at he
          have hltf : getBucketId cfg.geom key_hash < fs.length := by
            rw [hwf.filters_length fs hfs]
            exact bucketId_lt cfg.geom hwf.buckets_pos key_hash
          rw [getD_set_eq _ _ _ _ hltf]
          exact List.mem_map_of_mem _ he
        · rw [getD_set_ne _ _ _ _ _ hb] at he
          rw [getD_set_ne _ _ _ _ _ hb]
          exact hwf.filters_complete fs hfs bid2 e he

/-- Running any history of operations preserves the engine invariant. -/
theorem WF_runOps (cfg : EngineConfig) (ops : List Op) (st : EngineState)
    (hwf : WF cfg st) : WF cfg (runOps cfg ops st) := by
  induction ops generalizing st with
  | nil => exact hwf
  | cons op ops ih =>
    cases op with
    | ins k h v => exact ih _ (WF_insert cfg st k h v hwf)
    | rem k h => exact ih _ (WF_remove cfg st k h hwf)

/-- Keys of a front segment and of the matching back segment of a bucket
with pairwise-distinct keys never coincide. -/
theorem take_drop_key_ne (l : List Entry) (n : Nat)
    (hnd : (l.map (·.key)).Nodup) (e x : Entry)
    (he : e ∈ l.take n) (hx : x ∈ l.drop n) : e.key ≠ x.key := by
  intro hkey
  have hsplit : l.map (·.key) =
      (l.take n).map (·.key) ++ (l.drop n).map (·.key) := by
    rw [← List.map_append, List.take_append_drop]
  rw [hsplit] at hnd
  rcases List.nodup_append.mp hnd with ⟨_, _, hdisj⟩
  exact hdisj (List.mem_map_of_mem _ he)
    (by rw [hkey]; exact List.mem_map_of_mem _ hx)

/-- The keys surviving the upsert removal are pairwise distinct. -/
theorem restOf_keys_nodup (cfg : EngineConfig) (st : EngineState)
    (key : List Nat) (key_hash : Nat) (hwf : WF cfg st) :
    ((restOf cfg st key key_hash).map (·.key)).Nodup := by
  have hs :=
    (List.filter_sublist (l := bucketAt st (getBucketId cfg.geom key_hash))
      (p := fun e => ! (e.key == key))).map (f := (·.key))
  exact (hwf.nodup_keys _).sublist hs

/-- `stW` is well-formed. -/
theorem WF_stW : WF cfgW stW :=
  WF_insert cfgW _ [2] 12 (List.replicate 6 2)
    (WF_insert cfgW (emptyState cfgW) [1] 11 (List.replicate 6 1)
      (WF_emptyState cfgW (by decide)))

/-- C2: round-trip of lookup against the modelled operations.  (1) Starting
from the fresh engine, after any history of inserts and removes a key never
passed to `insert` looks up as `NotFound`.  (2) A key inserted with a value
into any well-formed state and not since removed, evicted or expired —
i.e. after any further history of operations its entry still sits in its
bucket and the expiry predicate rejects it — looks up as exactly that
value.  (3) The immediate special case: a key just inserted (accepted,
unexpired) looks up as exactly that value.  (4) A hit requires the stored
raw key bytes to match exactly: whenever no entry of the addressed bucket
carries the queried key bytes — regardless of how the stored hashes
compare — the lookup status is `NotFound`. -/
theorem lookup_roundtrip (cfg : EngineConfig) (st : EngineState)
    (key : List Nat) (key_hash : Nat) (value : List Nat) :
    (∀ ops : List Op, key ∉ insertedKeys ops →
      (lookup cfg (runOps cfg ops (emptyState cfg)) key key_hash).1 =
        Status.NotFound) ∧
    (∀ ops1 : List Op, WF cfg st →
      cfg.check_expired (Entry.mk key key_hash value) = false →
      Entry.mk key key_hash value ∈
        bucketAt (runOps cfg ops1 (insert cfg st key key_hash value).state)
          (getBucketId cfg.geom key_hash) →
      lookup cfg (runOps cfg ops1 (insert cfg st key key_hash value).state)
          key key_hash =
        (Status.Ok, some value,
          [DeviceOp.read (getBucketId cfg.geom key_hash)])) ∧
    (WF cfg st → requiredSize cfg key value ≤ bucketCapacity cfg →
      cfg.check_expired (Entry.mk key key_hash value) = false →
      lookup cfg (insert cfg st key key_hash value).state key key_hash =
        (Status.Ok, some value,
          [DeviceOp.read (getBucketId cfg.geom key_hash)])) ∧
    ((∀ e ∈ bucketAt st (getBucketId cfg.geom key_hash), e.key ≠ key) →
      (lookup cfg st key key_hash).1 = Status.NotFound) := by
  refine ⟨?_, ?_, ?_, ?_⟩
  · intro ops hnin
    apply lookup_no_key
    intro e he hkey
    rcases key_mem_runOps cfg ops (emptyState cfg) e _ he with
      hin | ⟨bid0, e0, he0, _⟩
    · rw [hkey] at hin
      exact hnin hin
    · rw [bucketAt_emptyState] at he0
      cases he0
  · intro ops1 hwf hexp hmem
    have hwfF := WF_runOps cfg ops1 _
      (WF_insert cfg st key key_hash value hwf)
    exact lookup_hit cfg _ (Entry.mk key key_hash value) hwfF hmem hexp
  · intro hwf hfit hexp
    exact lookup_insert_self cfg st key key_hash value hwf hfit hexp
  · exact lookup_no_key cfg st key key_hash

/-- C2 witness: under `cfgW`, the never-inserted key `[3]` is `NotFound`
after a two-operation history; the key `[1]` inserted with value `[7]`
still reads back as `[7]` after a further history (an insert of another
key into the same bucket and a no-op remove) under which its entry
survives; and it also reads back as `[7]` immediately after the insert. -/
theorem lookup_roundtrip_witness :
    ([3] ∉ insertedKeys [Op.ins [1] 5 [7], Op.rem [2] 6]) ∧
    (lookup cfgW
        (runOps cfgW [Op.ins [1] 5 [7], Op.rem [2] 6] (emptyState cfgW))
        [3] 5).1 = Status.NotFound ∧
    (Entry.mk [1] 5 [7] ∈
      bucketAt (runOps cfgW [Op.ins [2] 6 [9], Op.rem [4] 8]
          (insert cfgW (emptyState cfgW) [1] 5 [7]).state)
        (getBucketId cfgW.geom 5)) ∧
    lookup cfgW (runOps cfgW [Op.ins [2] 6 [9], Op.rem [4] 8]
        (insert cfgW (emptyState cfgW) [1] 5 [7]).state) [1] 5 =
      (Status.Ok, some [7], [DeviceOp.read (getBucketId cfgW.geom 5)]) ∧
    lookup cfgW (insert cfgW (emptyState cfgW) [1] 5 [7]).state [1] 5 =
      (Status.Ok, some [7], [DeviceOp.read (getBucketId cfgW.geom 5)]) :=
  ⟨by decide,
    (lookup_roundtrip cfgW (emptyState cfgW) [3] 5 [7]).1 _ (by decide),
    by decide,
    (lookup_roundtrip cfgW (emptyState cfgW) [1] 5 [7]).2.1
      [Op.ins [2] 6 [9], Op.rem [4] 8] (WF_emptyState cfgW (by decide)) rfl
      (by decide),
    (lookup_roundtrip cfgW (emptyState cfgW) [1] 5 [7]).2.2.1
      (WF_emptyState cfgW (by decide)) (by decide) rfl⟩

/-- C3: when the encoded entry size (key + value + entry header) exceeds
what even an empty bucket can store, insert fails with `ItemTooLarge`
leaving the state untouched, invoking no callback and performing no device
read or write; in particular with `bucket_size = 128` an item of encoded
size 150 is rejected and `getMaxItemSize` is below 150 (for any codec
overheads). -/
theorem insert_too_large (cfg : EngineConfig) (st : EngineState)
    (key : List Nat) (key_hash : Nat) (value : List Nat) :
    (bucketCapacity cfg < requiredSize cfg key value →
      insert cfg st key key_hash value = ⟨Status.ItemTooLarge, st, [], []⟩) ∧
    (cfg.bucket_size = 128 → requiredSize cfg key value = 150 →
      insert cfg st key key_hash value = ⟨Status.ItemTooLarge, st, [], []⟩ ∧
      getMaxItemSize cfg < 150) := by
  have hrej : bucketCapacity cfg < requiredSize cfg key value →
      insert cfg st key key_hash value = ⟨Status.ItemTooLarge, st, [], []⟩ := by
    intro hbig
    unfold insert
    rw [if_pos hbig]
  refine ⟨hrej, ?_⟩
  intro h128 h150
  have hcap : bucketCapacity cfg < requiredSize cfg key value := by
    unfold bucketCapacity
    rw [h128, h150]
    omega
  refine ⟨hrej hcap, ?_⟩
  unfold getMaxItemSize
  rw [h128]
  omega

/-- C3 witness: a 6-byte key with a 140-byte value (encoded size
`6 + 140 + 4 = 150`) is rejected by `insert` under `cfgC3` with no state
change, no callback and no device access, and `getMaxItemSize` is below
150. -/
theorem insert_too_large_witness :
    cfgC3.bucket_size = 128 ∧
    requiredSize cfgC3 (List.replicate 6 1) (List.replicate 140 2) = 150 ∧
    insert cfgC3 (emptyState cfgC3) (List.replicate 6 1) 9
        (List.replicate 140 2) =
      ⟨Status.ItemTooLarge, emptyState cfgC3, [], []⟩ ∧
    getMaxItemSize cfgC3 < 150 := by
  have h150 : requiredSize cfgC3 (List.replicate 6 1)
      (List.replicate 140 2) = 150 := by
    simp [requiredSize, cfgC3]
  have h := (insert_too_large cfgC3 (emptyState cfgC3) (List.replicate 6 1) 9
    (List.replicate 140 2)).2 rfl h150
  exact ⟨rfl, h150, h.1, h.2⟩

/-- C4: an accepted insert whose target bucket lacks room evicts exactly
the oldest entries, in insertion order: the callback sequence is the
superseded entry followed by the front segment of the (upsert-purged)
bucket; every eviction before the stopping point was necessary (the entry
did not fit yet); after the final eviction the entry fits or the bucket is
empty; each evicted entry receives exactly one destructor-callback
invocation; and every evicted entry is subsequently `NotFound` by
lookup. -/
theorem insert_fifo_eviction (cfg : EngineConfig) (st : EngineState)
    (key : List Nat) (key_hash : Nat) (value : List Nat) (hwf : WF cfg st)
    (hfit : requiredSize cfg key value ≤ bucketCapacity cfg) :
    (insert cfg st key key_hash value).callbacks =
      supersededOf cfg st key key_hash ++
        (restOf cfg st key key_hash).take
          (nEvict cfg st key key_hash value) ∧
    (∀ j < nEvict cfg st key key_hash value,
      bucketCapacity cfg <
        bucketUsed cfg ((restOf cfg st key key_hash).drop j) +
          requiredSize cfg key value) ∧
    (bucketUsed cfg
        ((restOf cfg st key key_hash).drop
          (nEvict cfg st key key_hash value)) +
        requiredSize cfg key value ≤ bucketCapacity cfg ∨
      (restOf cfg st key key_hash).drop (nEvict cfg st key key_hash value) =
        []) ∧
    (∀ e ∈ evictedOf cfg st key key_hash value,
      (insert cfg st key key_hash value).callbacks.count e = 1) ∧
    (∀ e ∈ evictedOf cfg st key key_hash value,
      (lookup cfg (insert cfg st key key_hash value).state e.key
        e.keyHash).1 = Status.NotFound) := by
  have hlt : getBucketId cfg.geom key_hash < st.buckets.length := by
    rw [hwf.buckets_length]
    exact bucketId_lt cfg.geom hwf.buckets_pos key_hash
  have hrest_nodup := restOf_keys_nodup cfg st key key_hash hwf
  refine ⟨?_, ?_, ?_, ?_, ?_⟩
  · rw [insert_ok cfg st key key_hash value hfit]
    rfl
  · intro j hj
    exact bucketUsed_drop_lt_evictCount cfg _ _ j hj
  · exact Or.inl (bucketUsed_drop_evictCount cfg _ _ hfit)
  · intro e he
    have hmemrest : e ∈ restOf cfg st key key_hash := List.mem_of_mem_take he
    have hek := restOf_key_ne cfg st key key_hash e hmemrest
    rw [insert_ok cfg st key key_hash value hfit]
    show (callbacksOf cfg st key key_hash value).count e = 1
    unfold callbacksOf
    rw [List.count_append]
    have hsup0 : (supersededOf cfg st key key_hash).count e = 0 := by
      rw [List.count_eq_zero]
      intro hmem
      have := (List.mem_filter.mp hmem).2
      exact hek (by simpa using this)
    have hev1 : (evictedOf cfg st key key_hash value).count e = 1 := by
      have hnd : (evictedOf cfg st key key_hash value).Nodup := by
        have hents : (restOf cfg st key key_hash).Nodup :=
          List.Nodup.of_map _ hrest_nodup
        exact hents.sublist (List.take_sublist _ _)
      exact List.count_eq_one_of_mem hnd he
    rw [hsup0, hev1]
  · intro e he
    have hmemrest : e ∈ restOf cfg st key key_hash := List.mem_of_mem_take he
    have hek := restOf_key_ne cfg st key key_hash e hmemrest
    have hplace : getBucketId cfg.geom e.keyHash =
        getBucketId cfg.geom key_hash :=
      hwf.placed _ e (List.mem_of_mem_filter hmemrest)
    apply lookup_no_key
    intro x hx
    rw [hplace, bucketAt_insert_self cfg st key key_hash value hfit hlt] at hx
    rcases List.mem_append.mp hx with hxd | hxn
    · intro hxe
      exact take_drop_key_ne (restOf cfg st key key_hash) _ hrest_nodup e x
        he hxd hxe.symm
    · have hxnew : x = Entry.mk key key_hash value := by simpa using hxn
      rw [hxnew]
      intro hxe
      exact hek hxe.symm

/-- C4 witness: under `cfgW` with the two-entry bucket `stW`, inserting a
third 7-byte entry evicts the oldest entry, and every evicted entry is
subsequently `NotFound`. -/
theorem insert_fifo_eviction_witness :
    requiredSize cfgW [9] (List.replicate 6 3) ≤ bucketCapacity cfgW ∧
    (insert cfgW stW [9] 13 (List.replicate 6 3)).callbacks =
      supersededOf cfgW stW [9] 13 ++
        (restOf cfgW stW [9] 13).take
          (nEvict cfgW stW [9] 13 (List.replicate 6 3)) ∧
    evictedOf cfgW stW [9] 13 (List.replicate 6 3) =
      [Entry.mk [1] 11 (List.replicate 6 1)] ∧
    (∀ e ∈ evictedOf cfgW stW [9] 13 (List.replicate 6 3),
      (lookup cfgW (insert cfgW stW [9] 13 (List.replicate 6 3)).state e.key
        e.keyHash).1 = Status.NotFound) := by
  have h := insert_fifo_eviction cfgW stW [9] 13 (List.replicate 6 3) WF_stW
    (by decide)
  exact ⟨by decide, h.1, by decide, h.2.2.2.2⟩

/-- C5: re-inserting an existing key replaces its entry: the second lookup
returns only the second value, and the destructor callback fires exactly
once for the superseded entry. -/
theorem insert_upsert (cfg : EngineConfig) (st : EngineState)
    (key : List Nat) (key_hash : Nat) (v1 v2 : List Nat) (hwf : WF cfg st)
    (hfit1 : requiredSize cfg key v1 ≤ bucketCapacity cfg)
    (hfit2 : requiredSize cfg key v2 ≤ bucketCapacity cfg)
    (hexp : cfg.check_expired (Entry.mk key key_hash v2) = false) :
    lookup cfg
        (insert cfg (insert cfg st key key_hash v1).state key key_hash
          v2).state key key_hash =
      (Status.Ok, some v2,
        [DeviceOp.read (getBucketId cfg.geom key_hash)]) ∧
    (insert cfg (insert cfg st key key_hash v1).state key key_hash
        v2).callbacks.count (Entry.mk key key_hash v1) = 1 := by
  have hwf1 := WF_insert cfg st key key_hash v1 hwf
  have hlt : getBucketId cfg.geom key_hash < st.buckets.length := by
    rw [hwf.buckets_length]
    exact bucketId_lt cfg.geom hwf.buckets_pos key_hash
  have hb1 := bucketAt_insert_self cfg st key key_hash v1 hfit1 hlt
  constructor
  · exact lookup_insert_self cfg _ key key_hash v2 hwf1 hfit2 hexp
  · rw [insert_ok cfg _ key key_hash v2 hfit2]
    show (callbacksOf cfg (insert cfg st key key_hash v1).state key key_hash
      v2).count (Entry.mk key key_hash v1) = 1
    unfold callbacksOf
    rw [List.count_append]
    have hsup : supersededOf cfg (insert cfg st key key_hash v1).state key
        key_hash = [Entry.mk key key_hash v1] := by
      unfold supersededOf
      rw [hb1]
      unfold newBucketOf
      rw [List.filter_append]
      have hdropnil : ((restOf cfg st key key_hash).drop
          (nEvict cfg st key key_hash v1)).filter
            (fun e => e.key == key) = [] := by
        rw [List.filter_eq_nil_iff]
        intro e hed
        simpa using restOf_key_ne cfg st key key_hash e
          (List.mem_of_mem_drop hed)
      rw [hdropnil]
      simp
    have hev0 : (evictedOf cfg (insert cfg st key key_hash v1).state key
        key_hash v2).count (Entry.mk key key_hash v1) = 0 := by
      rw [List.count_eq_zero]
      intro hmem
      have hrest := List.mem_of_mem_take hmem
      have := restOf_key_ne cfg _ key key_hash _ hrest
      exact this rfl
    rw [hsup, hev0]
    simp

/-- C5 witness: inserting `[1] ↦ [7]` then `[1] ↦ [8, 8]` under `cfgW`
reads back `[8, 8]` and the old entry got exactly one callback. -/
theorem insert_upsert_witness :
    requiredSize cfgW [1] [7] ≤ bucketCapacity cfgW ∧
    requiredSize cfgW [1] [8, 8] ≤ bucketCapacity cfgW ∧
    lookup cfgW
        (insert cfgW (insert cfgW (emptyState cfgW) [1] 11 [7]).state [1] 11
          [8, 8]).state [1] 11 =
      (Status.Ok, some [8, 8], [DeviceOp.read (getBucketId cfgW.geom 11)]) ∧
    (insert cfgW (insert cfgW (emptyState cfgW) [1] 11 [7]).state [1] 11
        [8, 8]).callbacks.count (Entry.mk [1] 11 [7]) = 1 := by
  have h := insert_upsert cfgW (emptyState cfgW) [1] 11 [7] [8, 8]
    (WF_emptyState cfgW (by decide)) (by decide) (by decide) rfl
  exact ⟨by decide, by decide, h.1, h.2⟩

/-- C6: `couldExist` never returns `false` for a stored key (no false
negatives), always returns `true` when no bloom filter is configured,
performs no device access, and may return `true` for an absent key (a
false positive, exhibited by a hash collision). -/
theorem couldExist_no_false_negative (cfg : EngineConfig)
    (st : EngineState) (e : Entry) (hwf : WF cfg st) :
    (e ∈ bucketAt st (getBucketId cfg.geom e.keyHash) →
      (couldExist cfg st e.keyHash).1 = true) ∧
    (st.filters = none → ∀ h : Nat, (couldExist cfg st h).1 = true) ∧
    (∀ h : Nat, (couldExist cfg st h).2 = []) ∧
    (∃ cfg2 st2 key2 hash2, WF cfg2 st2 ∧
      (lookup cfg2 st2 key2 hash2).1 = Status.NotFound ∧
      (couldExist cfg2 st2 hash2).1 = true) := by
  refine ⟨?_, ?_, fun h => rfl, ?_⟩
  · intro hmem
    show (! bfReject st (getBucketId cfg.geom e.keyHash) e.keyHash) = true
    rcases hfs : st.filters with _ | fs
    · simp only [bfReject, hfs]
      rfl
    · have hc := hwf.filters_complete fs hfs _ e hmem
      have hcontains : (fs.getD (getBucketId cfg.geom e.keyHash) []).contains
          e.keyHash = true := List.elem_eq_true_of_mem hc
      simp only [bfReject, hfs, hcontains, Bool.not_true, Bool.not_false]
  · intro hfs h
    show (! bfReject st (getBucketId cfg.geom h) h) = true
    simp only [bfReject, hfs]
    rfl
  · refine ⟨cfgW, (insert cfgW (emptyState cfgW) [1] 11 [7]).state, [5], 11,
      WF_insert cfgW (emptyState cfgW) [1] 11 [7]
        (WF_emptyState cfgW (by decide)), by decide, by decide⟩

/-- C6 witness: the theorem applied at the singleton state storing `[1]`
with hash 11: `couldExist` answers `true` for that stored entry. -/
theorem couldExist_no_false_negative_witness :
    (Entry.mk [1] 11 [7] ∈
      bucketAt (insert cfgW (emptyState cfgW) [1] 11 [7]).state
        (getBucketId cfgW.geom 11)) ∧
    (couldExist cfgW (insert cfgW (emptyState cfgW) [1] 11 [7]).state
      11).1 = true := by
  have h := couldExist_no_false_negative cfgW
    (insert cfgW (emptyState cfgW) [1] 11 [7]).state (Entry.mk [1] 11 [7])
    (WF_insert cfgW (emptyState cfgW) [1] 11 [7]
      (WF_emptyState cfgW (by decide)))
  exact ⟨by decide, h.1 (by decide)⟩

/-- C7: recover rejects a stored header whose format version is not
`kFormatVersion` or whose configuration fingerprint (bucket size, device
region, bucket count) differs from the current configuration, returning
`false` and leaving the engine state exactly as it was — never partially
restored. -/
theorem recover_rejects_mismatch (cfg : EngineConfig) (st : EngineState)
    (h : PersistedHeader)
    (hbad : h.version ≠ kFormatVersion ∨ h.bucket_size ≠ cfg.bucket_size ∨
      h.cache_start_offset ≠ cfg.cache_start_offset ∨
      h.cache_size ≠ cfg.cache_size ∨ h.num_buckets ≠ cfg.numBuckets) :
    recover cfg st h = (false, st) := by
  have hnc : ¬(h.version = kFormatVersion ∧
      h.bucket_size = cfg.bucket_size ∧
      h.cache_start_offset = cfg.cache_start_offset ∧
      h.cache_size = cfg.cache_size ∧ h.num_buckets = cfg.numBuckets) := by
    tauto
  unfold recover
  rw [if_neg hnc]

/-- C7 witness: recovering `hdrBad` under `cfgW` fails and returns the
engine state unchanged. -/
theorem recover_rejects_mismatch_witness :
    hdrBad.version ≠ kFormatVersion ∧
    recover cfgW (emptyState cfgW) hdrBad = (false, emptyState cfgW) :=
  ⟨by decide, recover_rejects_mismatch cfgW (emptyState cfgW) hdrBad
    (Or.inl (by decide))⟩

end BigHash
